import Mathlib

/-!
Verification of the 24Multiplayer repository.

This file gives a shallow embedding of the two pieces of code the claims
are about:

1. the pure 24-game solver in src/app/utils/solver.ts
   (applyOperator, combineExpressions, permutations, solve, hasSolution,
   generatePuzzle);

2. the room state machine implemented by the HTTP route handler in
   src/app/api/rooms/[roomId]/route.ts
   (the GameState record, loadState, saveState, GET and POST).

JavaScript numbers are modelled as rationals, JavaScript exceptions as
Except or Option values, and the Redis store holding one room as an
Option GameState value.  The random number generator behind Math.random
and the clock behind Date.now are oracle parameters (a stream of draws
and a timestamp), so all theorems quantify over every possible run.
-/

namespace TwentyFour

/-! ### Embedding of src/app/utils/solver.ts -/

/-- The four operators of the game, from the Operator union type. -/
inductive Op : Type
  | add
  | sub
  | mul
  | div
deriving DecidableEq, Repr, Inhabited

/-- An arithmetic expression tree over rational leaves.  The source keeps
a fully parenthesised string representation next to each value; the string
is determined by this tree, so the tree stands for the representation. -/
inductive Expr : Type
  | num (q : ℚ)
  | bin (op : Op) (a b : Expr)
deriving DecidableEq, Repr, Inhabited

/-- Evaluation of an expression tree; division by zero yields none, which
in the source is a thrown and then swallowed exception. -/
def evalExpr : Expr → Option ℚ
  | .num q => some q
  | .bin op a b =>
    match evalExpr a, evalExpr b with
    | some x, some y =>
      match op with
      | .add => some (x + y)
      | .sub => some (x - y)
      | .mul => some (x * y)
      | .div => if y = 0 then none else some (x / y)
    | _, _ => none

/-- The multiset of leaf values of an expression: which input numbers the
expression uses, counted with multiplicity. -/
def leavesM : Expr → Multiset ℚ
  | .num q => {q}
  | .bin _ a b => leavesM a + leavesM b

/-- Mirror of the Expression record of the source: a value together with
its representation (kept here as the tree that prints to it). -/
structure Expression : Type where
  tree : Expr
  value : ℚ
deriving DecidableEq, Repr, Inhabited

/-- Mirror of Solver.applyOperator.  The division-by-zero throw that the
caller catches and skips is modelled by none. -/
def applyOperator (a b : Expression) : Op → Option Expression
  | .add => some ⟨.bin .add a.tree b.tree, a.value + b.value⟩
  | .sub => some ⟨.bin .sub a.tree b.tree, a.value - b.value⟩
  | .mul => some ⟨.bin .mul a.tree b.tree, a.value * b.value⟩
  | .div =>
    if b.value = 0 then none
    else some ⟨.bin .div a.tree b.tree, a.value / b.value⟩

/-- All four operators, in the order of the source array. -/
def allOps : List Op := [.add, .sub, .mul, .div]

/-- Keep the elements whose position satisfies p, counting positions from
n: the translation of a JavaScript Array.filter whose callback looks only
at the index. -/
def filterIdxFrom (p : ℕ → Bool) : ℕ → List α → List α
  | _, [] => []
  | n, a :: tl => (if p n then [a] else []) ++ filterIdxFrom p (n + 1) tl

/-- Mirror of Solver.combineExpressions.  The source recurses on a list
that is one element shorter each time; here the decreasing length is made
explicit as a fuel argument, and combineExpressions below instantiates the
fuel with the list length, which reproduces the source recursion exactly.
With insufficient fuel the function returns no combination, which the
lemmas below never rely on. -/
def combineGo (fuel : ℕ) (es : List Expression) : List Expression :=
  if es.length = 1 then es
  else
    match fuel with
    | 0 => []
    | fuel + 1 =>
      (List.range es.length).flatMap fun i =>
        (List.range es.length).flatMap fun j =>
          if i = j then []
          else
            let remaining := filterIdxFrom (fun idx => idx != i && idx != j) 0 es
            allOps.flatMap fun op =>
              match applyOperator es[i]! es[j]! op with
              | none => []
              | some newExpr => combineGo fuel (remaining ++ [newExpr])

/-- Mirror of Solver.combineExpressions at its actual call pattern. -/
def combineExpressions (es : List Expression) : List Expression :=
  combineGo es.length es

/-- Mirror of Solver.permutations, again with the structural recursion on
a strictly shorter list expressed through a fuel argument instantiated
with the list length. -/
def permsGo [Inhabited α] : ℕ → List α → List (List α)
  | _, [] => [[]]
  | _, [a] => [[a]]
  | 0, _ => []
  | fuel + 1, arr =>
    (List.range arr.length).flatMap fun i =>
      let current := arr[i]!
      let rest := arr.take i ++ arr.drop (i + 1)
      (permsGo fuel rest).map fun perm => current :: perm

/-- Mirror of Solver.permutations. -/
def permutationsL [Inhabited α] (arr : List α) : List (List α) :=
  permsGo arr.length arr

/-- The floating tolerance 1e-10 of the source, as an exact rational. -/
def tol24 : ℚ := 1 / 10 ^ 10

/-- Mirror of Solver.solve.  The thrown length error becomes an Except
error.  The source deduplicates the string representations through a Set;
here the expressions are returned undeduplicated, which leaves emptiness,
membership and the error behaviour unchanged. -/
def solve (numbers : List ℚ) : Except String (List Expression) :=
  if numbers.length ≠ 4 then .error "The 24 game requires exactly 4 numbers"
  else
    let exprs : List Expression := numbers.map fun n => ⟨.num n, n⟩
    .ok <| (permutationsL exprs).flatMap fun perm =>
      (combineExpressions perm).filter fun e => decide (|e.value - 24| < tol24)

/-- Mirror of Solver.hasSolution.  On inputs of length other than four the
source propagates the exception of solve; every call site passes four
numbers, and the error case is mapped to false here. -/
def hasSolution (numbers : List ℚ) : Bool :=
  match solve numbers with
  | .ok l => decide (0 < l.length)
  | .error _ => false

/-- One random candidate hand: the source draws four integers with
Math.random; the draws are the oracle r, consumed four per attempt. -/
def candidate (r : ℕ → ℤ) (attempt : ℕ) : List ℚ :=
  [(r (4 * attempt) : ℚ), (r (4 * attempt + 1) : ℚ),
   (r (4 * attempt + 2) : ℚ), (r (4 * attempt + 3) : ℚ)]

/-- The known-solvable fallback hand of Solver.generatePuzzle. -/
def fallbackPuzzle : List ℚ := [3, 3, 8, 8]

/-- The retry loop of Solver.generatePuzzle: remaining attempts count
down from the budget of 100. -/
def genGo (r : ℕ → ℤ) : ℕ → ℕ → List ℚ
  | 0, _ => fallbackPuzzle
  | fuel + 1, attempt =>
    let nums := candidate r attempt
    if hasSolution nums then nums else genGo r fuel (attempt + 1)

/-- Mirror of Solver.generatePuzzle with the default bounds, abstracted
over the stream r of random draws; maxAttempts is 100. -/
def generatePuzzle (r : ℕ → ℤ) : List ℚ :=
  genGo r 100 0

/-! ### Embedding of src/app/api/rooms/[roomId]/route.ts -/

/-- A pre-generated hand, the Puzzle alias of the route. -/
abbrev Puzzle : Type := List ℚ

/-- Mirror of the Player record of the route. -/
structure Player : Type where
  id : String
  name : String
  ready : Bool
  score : ℕ
deriving DecidableEq, Repr

/-- Mirror of the LastSolution record of the route. -/
structure LastSolution : Type where
  playerName : String
  solution : String
  time : ℕ
deriving DecidableEq, Repr

/-- Mirror of the GameState record of the route.  Note that there is no
revision field of any kind. -/
structure GameState : Type where
  roomId : String
  players : List Player
  isActive : Bool
  currentPuzzle : Puzzle
  puzzleQueue : List Puzzle
  targetScore : ℕ
  gameOver : Bool
  winner : Option String
  winnerDetails : Option Player
  lastSolution : Option LastSolution
deriving DecidableEq, Repr

/-- The JavaScript a-or-else-b idiom on numbers: 0 is falsy. -/
def jsOr (a b : ℕ) : ℕ := if a = 0 then b else a

/-- The JavaScript a-or-else-b idiom on strings: the empty string is
falsy. -/
def jsOrS (a b : String) : String := if a = "" then b else a

/-- Whether an optional string field of the request body is falsy:
absent or the empty string. -/
def jsFalsy (o : Option String) : Bool := o.getD "" == ""

/-- The body of a POST request, as destructured by the route; absent
JSON fields are none, and the mandatory action and playerId strings use
the empty string for absent. -/
structure ReqBody : Type where
  action : String
  playerId : String
  playerName : Option String := none
  targetScore : Option ℕ := none
  solution : Option String := none
deriving DecidableEq, Repr

/-- The five fresh puzzles drawn when a queue is initialised, consuming
draws k, k+1, ..., k+4 of the puzzle oracle ps. -/
def newQueue (ps : ℕ → Puzzle) (k : ℕ) : List Puzzle :=
  (List.range 5).map fun i => ps (k + i)

/-- The initial GameState built by loadState for an unknown room id. -/
def freshState (ps : ℕ → Puzzle) (k : ℕ) (roomId : String)
    (targetScore : Option ℕ) : GameState where
  roomId := roomId
  players := []
  isActive := false
  currentPuzzle := []
  puzzleQueue := newQueue ps k
  targetScore := targetScore.getD 5
  gameOver := false
  winner := none
  winnerDetails := none
  lastSolution := none

/-- The field-coercion pass loadState applies to a state read back from
Redis.  On the well-typed states this model stores, every coercion is the
identity except the falsy-value fallbacks on roomId, targetScore and the
lastSolution timestamp, which are kept here. -/
def validateLoaded (s : GameState) (roomId : String) (targetScore : Option ℕ)
    (now : ℕ) : GameState :=
  { s with
    roomId := jsOrS s.roomId roomId
    targetScore := jsOr s.targetScore (jsOr (targetScore.getD 0) 5)
    lastSolution := s.lastSolution.map fun ls => { ls with time := jsOr ls.time now } }

/-- Mirror of loadState for one room: a stored state is validated and
returned; an unknown room id gets a fresh state that is immediately
written to the store.  The result is the state handed to the caller, the
next free index of the puzzle oracle, and the store after the call. -/
def loadState (ps : ℕ → Puzzle) (k : ℕ) (store : Option GameState)
    (roomId : String) (targetScore : Option ℕ) (now : ℕ) :
    GameState × ℕ × Option GameState :=
  match store with
  | some s => (validateLoaded s roomId targetScore now, k, store)
  | none =>
    let s := freshState ps k roomId targetScore
    (s, k + 5, some s)

/-- The field-coercion pass saveState applies before serialising; again
only the falsy-value fallbacks differ from the identity on well-typed
states. -/
def normalizeSave (s : GameState) (now : ℕ) : GameState :=
  { s with
    targetScore := jsOr s.targetScore 5
    lastSolution := s.lastSolution.map fun ls => { ls with time := jsOr ls.time now } }

/-- A typed error response: HTTP status and error message. -/
abbrev ErrResp : Type := ℕ × String

/-- The index JavaScript findIndex computes; the branch tests written as
playerIndex greater or equal zero in the source become bounds checks on
List.findIdx, which returns the length when nothing matches. -/
def playerIndex (s : GameState) (req : ReqBody) : ℕ :=
  s.players.findIdx fun p => p.id == req.playerId

/-- The join branch of the POST handler body. -/
def joinAct (s : GameState) (req : ReqBody) (k : ℕ) :
    Except ErrResp (GameState × ℕ) :=
  let pn := req.playerName.getD ""
  if s.players.any fun p => p.name == pn && p.id != req.playerId then
    .error (400, "Player name is already taken")
  else if h : playerIndex s req < s.players.length then
    let p := s.players.get ⟨playerIndex s req, h⟩
    .ok ({ s with players := s.players.set (playerIndex s req) { p with name := pn, ready := false } }, k)
  else if s.isActive then
    .error (400, "Cannot join: Game is already in progress")
  else if s.gameOver then
    .error (400, "Cannot join: Game is over")
  else
    .ok ({ s with players := s.players ++ [⟨req.playerId, pn, false, 0⟩] }, k)

/-- The ready branch of the POST handler body. -/
def readyAct (ps : ℕ → Puzzle) (k : ℕ) (s : GameState) (req : ReqBody) :
    Except ErrResp (GameState × ℕ) :=
  if h : playerIndex s req < s.players.length then
    let p := s.players.get ⟨playerIndex s req, h⟩
    let s1 := { s with players := s.players.set (playerIndex s req) { p with ready := true } }
    let canStart := decide (2 ≤ s1.players.length) && s1.players.all fun p => p.ready
    if canStart && !s1.isActive then
      let queue := if s1.puzzleQueue.length = 0 then newQueue ps k else s1.puzzleQueue
      let k1 := if s1.puzzleQueue.length = 0 then k + 5 else k
      .ok ({ s1 with
              isActive := true
              currentPuzzle := queue.headD []
              puzzleQueue := queue.tail }, k1)
    else
      .ok (s1, k)
  else
    .error (404, "Player not found")

/-- The submit branch of the POST handler body. -/
def submitAct (ps : ℕ → Puzzle) (k now : ℕ) (s : GameState) (req : ReqBody) :
    Except ErrResp (GameState × ℕ) :=
  if h : playerIndex s req < s.players.length then
    let p := s.players.get ⟨playerIndex s req, h⟩
    if !s.isActive || s.gameOver then
      .error (400, "Game is not active or already over")
    else
      let p1 := { p with score := p.score + 1 }
      let s1 := { s with
                    players := s.players.set (playerIndex s req) p1
                    lastSolution := some ⟨p1.name, req.solution.getD "", now⟩ }
      if s1.targetScore ≤ p1.score then
        .ok ({ s1 with
                gameOver := true
                winner := some p1.id
                winnerDetails := some p1
                isActive := false }, k)
      else
        let q1 := if s1.puzzleQueue.length = 0 then s1.puzzleQueue ++ [ps k] else s1.puzzleQueue
        let k1 := if s1.puzzleQueue.length = 0 then k + 1 else k
        .ok ({ s1 with
                currentPuzzle := q1.headD []
                puzzleQueue := q1.tail ++ [ps k1] }, k1 + 1)
  else
    .error (404, "Player not found")

/-- The in-memory body of the POST handler between loadState and the
final saveState: dispatch on the action string, mutate a copy of the
state or fail.  Returns the new state and the next oracle index. -/
def applyAction (ps : ℕ → Puzzle) (k now : ℕ) (s : GameState) (req : ReqBody) :
    Except ErrResp (GameState × ℕ) :=
  if req.action == "join" then joinAct s req k
  else if req.action == "ready" then readyAct ps k s req
  else if req.action == "submit" then submitAct ps k now s req
  else .error (400, "Invalid action")

/-- The room state after the in-memory handler body: the new state on
success, the untouched state on a rejected action. -/
def stateAfter (ps : ℕ → Puzzle) (k now : ℕ) (s : GameState) (req : ReqBody) :
    GameState :=
  match applyAction ps k now s req with
  | .ok (s', _) => s'
  | .error _ => s

/-- Mirror of the POST route handler: field validation, loadState (which
creates unknown rooms), the action body, and the final saveState.
Returns the response, the store after the request, and the next oracle
index. -/
def POSTr (ps : ℕ → Puzzle) (k now : ℕ) (store : Option GameState)
    (roomId : String) (req : ReqBody) :
    Except ErrResp GameState × Option GameState × ℕ :=
  if roomId == "" then (.error (400, "Room ID is required"), store, k)
  else if req.action == "" then
    (.error (400, "Missing required field: action"), store, k)
  else if req.playerId == "" then
    (.error (400, "Missing required field: playerId"), store, k)
  else if req.action == "join" && jsFalsy req.playerName then
    (.error (400, "Missing required field for join: playerName"), store, k)
  else if req.action == "submit" && jsFalsy req.solution then
    (.error (400, "Missing required field for submit: solution"), store, k)
  else
    let (s, k1, store1) := loadState ps k store roomId req.targetScore now
    match applyAction ps k1 now s req with
    | .error e => (.error e, store1, k1)
    | .ok (s', k2) => (.ok s', some (normalizeSave s' now), k2)

/-- Mirror of the GET route handler: loadState and return the snapshot.
For an unknown room id this creates, persists and returns a fresh empty
room state. -/
def GETr (ps : ℕ → Puzzle) (k : ℕ) (store : Option GameState)
    (roomId : String) (now : ℕ) :
    Except ErrResp GameState × Option GameState × ℕ :=
  if roomId == "" then (.error (400, "Room ID is required"), store, k)
  else
    let (s, k1, store1) := loadState ps k store roomId none now
    (.ok s, store1, k1)

/-- A timestamped request, as fed to a run of the route. -/
abbrev TimedReq : Type := ReqBody × ℕ

/-- One step of a run: apply a POST request to the store, keeping the
store and the oracle index. -/
def runStep (ps : ℕ → Puzzle) (roomId : String)
    (acc : Option GameState × ℕ) (tr : TimedReq) : Option GameState × ℕ :=
  let (_, store', k') := POSTr ps acc.2 tr.2 acc.1 roomId tr.1
  (store', k')

/-- A whole run of the route against one room: every reachable store
content is the result of some such run. -/
def runPosts (ps : ℕ → Puzzle) (roomId : String)
    (init : Option GameState × ℕ) (trs : List TimedReq) : Option GameState × ℕ :=
  trs.foldl (runStep ps roomId) init

/-! ### Shared list helpers -/

theorem set_get_self (l : List α) : ∀ (i : ℕ) (h : i < l.length),
    l.set i (l.get ⟨i, h⟩) = l := by
  induction l with
  | nil => intro i h; simp at h
  | cons a tl ih =>
    intro i h
    cases i with
    | zero => rfl
    | succ n =>
      simp only [List.set, List.get]
      rw [ih n (by simpa using h)]

/-! ### The spec phases, read off the two boolean flags of the route -/

/-- The three coarse phases of the spec. -/
inductive Phase : Type
  | Lobby
  | Active
  | Complete
deriving DecidableEq, Repr

/-- The phase of a room state: gameOver marks Complete, isActive without
gameOver marks Active, otherwise Lobby. -/
def phase (s : GameState) : Phase :=
  if s.gameOver then .Complete else if s.isActive then .Active else .Lobby

/-- Rank of a phase in the forward order Lobby, Active, Complete. -/
def phaseRank : Phase → ℕ
  | .Lobby => 0
  | .Active => 1
  | .Complete => 2

/-- A committed join never touches the two phase flags. -/
theorem joinAct_flags (s : GameState) (req : ReqBody) (k : ℕ) (s' : GameState)
    (k' : ℕ) (h : joinAct s req k = .ok (s', k')) :
    s'.isActive = s.isActive ∧ s'.gameOver = s.gameOver := by
  simp only [joinAct] at h
  split_ifs at h
  all_goals simp only [Except.ok.injEq, Prod.mk.injEq, reduceCtorEq] at h
  all_goals obtain ⟨hs, -⟩ := h
  all_goals subst hs
  all_goals exact ⟨rfl, rfl⟩

/-- A committed ready keeps gameOver and can only switch isActive on. -/
theorem readyAct_flags (ps : ℕ → Puzzle) (k : ℕ) (s : GameState) (req : ReqBody)
    (s' : GameState) (k' : ℕ) (h : readyAct ps k s req = .ok (s', k')) :
    s'.gameOver = s.gameOver ∧ (s'.isActive = s.isActive ∨ s.isActive = false) := by
  simp only [readyAct] at h
  split_ifs at h with hidx hstart hq
  all_goals simp only [Except.ok.injEq, Prod.mk.injEq, reduceCtorEq] at h
  all_goals obtain ⟨hs, -⟩ := h
  all_goals subst hs
  · simp only [Bool.and_eq_true, Bool.not_eq_true'] at hstart
    exact ⟨rfl, Or.inr hstart.2⟩
  · simp only [Bool.and_eq_true, Bool.not_eq_true'] at hstart
    exact ⟨rfl, Or.inr hstart.2⟩
  · exact ⟨rfl, Or.inl rfl⟩

/-- A committed submit happens only in an active, unfinished room, and
leaves the room active or finished. -/
theorem submitAct_flags (ps : ℕ → Puzzle) (k now : ℕ) (s : GameState)
    (req : ReqBody) (s' : GameState) (k' : ℕ)
    (h : submitAct ps k now s req = .ok (s', k')) :
    s.isActive = true ∧ s.gameOver = false ∧
      (s'.gameOver = true ∨ (s'.isActive = true ∧ s'.gameOver = false)) := by
  simp only [submitAct] at h
  split_ifs at h with hidx hguard hwin hq
  all_goals simp only [Except.ok.injEq, Prod.mk.injEq, reduceCtorEq] at h
  all_goals obtain ⟨hs, -⟩ := h
  all_goals subst hs
  all_goals simp only [Bool.or_eq_true, Bool.not_eq_true'] at hguard
  all_goals push_neg at hguard
  · exact ⟨by simpa using hguard.1, by simpa using hguard.2, Or.inl rfl⟩
  · exact ⟨by simpa using hguard.1, by simpa using hguard.2,
      Or.inr ⟨by simpa using hguard.1, by simpa using hguard.2⟩⟩
  · exact ⟨by simpa using hguard.1, by simpa using hguard.2,
      Or.inr ⟨by simpa using hguard.1, by simpa using hguard.2⟩⟩

/-- A committed action never lowers the phase rank. -/
theorem applyAction_phase_mono (ps : ℕ → Puzzle) (k now : ℕ) (s : GameState)
    (req : ReqBody) (s' : GameState) (k' : ℕ)
    (h : applyAction ps k now s req = .ok (s', k')) :
    phaseRank (phase s) ≤ phaseRank (phase s') := by
  unfold applyAction at h
  split_ifs at h
  · obtain ⟨ha, hg⟩ := joinAct_flags s req k s' k' h
    simp [phase, phaseRank, ha, hg]
  · obtain ⟨hg, ha⟩ := readyAct_flags ps k s req s' k' h
    rcases ha with ha | ha <;>
      cases hgb : s.gameOver <;> cases hab : s.isActive <;>
        simp_all [phase, phaseRank]
  · obtain ⟨ha, hg, hc⟩ := submitAct_flags ps k now s req s' k' h
    rcases hc with hc | ⟨hc1, hc2⟩
    · simp [phase, phaseRank, ha, hg, hc]
    · simp [phase, phaseRank, ha, hg, hc1, hc2]

/-- One step of the in-memory room evolution: the state and oracle index
after one handler body, with rejected actions leaving the state as it
was (the route returns early without saving). -/
def stepState (ps : ℕ → Puzzle) (acc : GameState × ℕ) (tr : TimedReq) :
    GameState × ℕ :=
  match applyAction ps acc.2 tr.2 acc.1 tr.1 with
  | .ok (s', k') => (s', k')
  | .error _ => acc

/-- The room state after a whole sequence of actions. -/
def runStates (ps : ℕ → Puzzle) (acc : GameState × ℕ) (trs : List TimedReq) :
    GameState × ℕ :=
  trs.foldl (stepState ps) acc

theorem stepState_phase_mono (ps : ℕ → Puzzle) (acc : GameState × ℕ)
    (tr : TimedReq) :
    phaseRank (phase acc.1) ≤ phaseRank (phase (stepState ps acc tr).1) := by
  unfold stepState
  rcases happ : applyAction ps acc.2 tr.2 acc.1 tr.1 with e | ⟨s', k'⟩
  · simp
  · simpa using applyAction_phase_mono ps acc.2 tr.2 acc.1 tr.1 s' k' happ

/-- Claim C2: along every sequence of actions applied to a room, the
phase advances only forward in the order Lobby, Active, Complete; no
action moves it backwards. -/
theorem claim_C2_phase_only_advances (ps : ℕ → Puzzle) (s : GameState)
    (k : ℕ) (trs : List TimedReq) :
    phaseRank (phase s) ≤ phaseRank (phase (runStates ps (s, k) trs).1) := by
  suffices h : ∀ acc : GameState × ℕ,
      phaseRank (phase acc.1) ≤ phaseRank (phase (runStates ps acc trs).1) from
    h (s, k)
  induction trs with
  | nil => intro acc; exact le_rfl
  | cons tr rest ih =>
    intro acc
    calc phaseRank (phase acc.1)
        ≤ phaseRank (phase (stepState ps acc tr).1) :=
          stepState_phase_mono ps acc tr
      _ ≤ phaseRank (phase (runStates ps (stepState ps acc tr) rest).1) :=
          ih (stepState ps acc tr)
      _ = phaseRank (phase (runStates ps acc (tr :: rest)).1) := rfl

/-- Updating one list entry with an entry of equal score leaves the list
of scores unchanged. -/
theorem map_score_set (l : List Player) (i : ℕ) (hi : i < l.length) (q : Player)
    (hq : q.score = (l.get ⟨i, hi⟩).score) :
    (l.set i q).map (fun p => p.score) = l.map (fun p => p.score) := by
  rw [List.map_set]
  have h3 : q.score = (l.map fun p => p.score).get ⟨i, by simpa⟩ := by simp [hq]
  rw [h3, set_get_self]

/-- In a finished room, a committed join (necessarily a rejoin) changes
no score and not the winner. -/
theorem joinAct_complete_frame (s : GameState) (req : ReqBody) (k : ℕ)
    (s' : GameState) (k' : ℕ) (hg : s.gameOver = true)
    (h : joinAct s req k = .ok (s', k')) :
    s'.players.map (fun p => p.score) = s.players.map (fun p => p.score) ∧
      s'.winner = s.winner := by
  simp only [joinAct] at h
  split_ifs at h with hname hidx hact
  all_goals simp only [Except.ok.injEq, Prod.mk.injEq, reduceCtorEq] at h
  all_goals obtain ⟨hs, -⟩ := h
  all_goals subst hs
  · exact ⟨map_score_set s.players _ hidx _ rfl, rfl⟩

/-- A committed ready changes no score and not the winner. -/
theorem readyAct_score_winner_frame (ps : ℕ → Puzzle) (k : ℕ) (s : GameState)
    (req : ReqBody) (s' : GameState) (k' : ℕ)
    (h : readyAct ps k s req = .ok (s', k')) :
    s'.players.map (fun p => p.score) = s.players.map (fun p => p.score) ∧
      s'.winner = s.winner := by
  simp only [readyAct] at h
  split_ifs at h with hidx hstart hq
  all_goals simp only [Except.ok.injEq, Prod.mk.injEq, reduceCtorEq] at h
  all_goals obtain ⟨hs, -⟩ := h
  all_goals subst hs
  all_goals exact ⟨map_score_set s.players _ hidx _ rfl, rfl⟩

/-- One step of the room evolution on a finished room changes no score,
not the winner, and leaves the room finished. -/
theorem stepState_complete_frame (ps : ℕ → Puzzle) (acc : GameState × ℕ)
    (tr : TimedReq) (hg : acc.1.gameOver = true) :
    (stepState ps acc tr).1.players.map (fun p => p.score) =
        acc.1.players.map (fun p => p.score) ∧
      (stepState ps acc tr).1.winner = acc.1.winner ∧
      (stepState ps acc tr).1.gameOver = true := by
  unfold stepState
  rcases happ : applyAction ps acc.2 tr.2 acc.1 tr.1 with e | ⟨s', k'⟩
  · exact ⟨rfl, rfl, hg⟩
  · simp only
    unfold applyAction at happ
    split_ifs at happ
    · obtain ⟨hsc, hw⟩ := joinAct_complete_frame acc.1 tr.1 acc.2 s' k' hg happ
      obtain ⟨-, hgo⟩ := joinAct_flags acc.1 tr.1 acc.2 s' k' happ
      exact ⟨hsc, hw, hgo.trans hg⟩
    · obtain ⟨hsc, hw⟩ := readyAct_score_winner_frame ps acc.2 acc.1 tr.1 s' k' happ
      obtain ⟨hgo, -⟩ := readyAct_flags ps acc.2 acc.1 tr.1 s' k' happ
      exact ⟨hsc, hw, hgo.trans hg⟩
    · obtain ⟨-, hgo, -⟩ := submitAct_flags ps acc.2 tr.2 acc.1 tr.1 s' k' happ
      exact absurd hg (by simp [hgo])

/-- Claim C3: once a room is Complete (its gameOver flag is set), no
sequence of further actions changes any score of any player or the
winner field. -/
theorem claim_C3_complete_frame (ps : ℕ → Puzzle) (s : GameState) (k : ℕ)
    (trs : List TimedReq) (hg : s.gameOver = true) :
    (runStates ps (s, k) trs).1.players.map (fun p => p.score) =
        s.players.map (fun p => p.score) ∧
      (runStates ps (s, k) trs).1.winner = s.winner := by
  suffices h : ∀ acc : GameState × ℕ, acc.1.gameOver = true →
      (runStates ps acc trs).1.players.map (fun p => p.score) =
          acc.1.players.map (fun p => p.score) ∧
        (runStates ps acc trs).1.winner = acc.1.winner ∧
        (runStates ps acc trs).1.gameOver = true from
    ⟨(h (s, k) hg).1, (h (s, k) hg).2.1⟩
  induction trs with
  | nil => intro acc hacc; exact ⟨rfl, rfl, hacc⟩
  | cons tr rest ih =>
    intro acc hacc
    obtain ⟨h1, h2, h3⟩ := stepState_complete_frame ps acc tr hacc
    obtain ⟨g1, g2, g3⟩ := ih (stepState ps acc tr) h3
    exact ⟨g1.trans h1, g2.trans h2, g3⟩

/-! ### Concrete rooms and requests used to exercise the machine -/

/-- A puzzle oracle producing empty hands; the machine logic never looks
inside a hand. -/
def psEmpty : ℕ → Puzzle := fun _ => []

/-- A join request body. -/
def joinReqOf (pid pn : String) : ReqBody :=
  { action := "join", playerId := pid, playerName := some pn }

/-- A ready request body. -/
def readyReqOf (pid : String) : ReqBody :=
  { action := "ready", playerId := pid }

/-- A submit request body. -/
def submitReqOf (pid : String) : ReqBody :=
  { action := "submit", playerId := pid, solution := some "24" }

/-- A finished two-player room: alice reached the target of 2 points. -/
def roomDone : GameState where
  roomId := "r"
  players := [⟨"a", "alice", true, 2⟩, ⟨"b", "bob", true, 0⟩]
  isActive := false
  currentPuzzle := []
  puzzleQueue := [[], [], [], []]
  targetScore := 2
  gameOver := true
  winner := some "a"
  winnerDetails := some ⟨"a", "alice", true, 2⟩
  lastSolution := none

/-- Witness for claim C3 at a concrete finished room and a concrete
action sequence. -/
theorem claim_C3_complete_frame_witness :
    roomDone.gameOver = true ∧
      ((runStates psEmpty (roomDone, 0)
            [(submitReqOf "a", 7), (readyReqOf "b", 8), (joinReqOf "a" "al", 9)]).1.players.map
            (fun p => p.score) =
          roomDone.players.map (fun p => p.score) ∧
        (runStates psEmpty (roomDone, 0)
            [(submitReqOf "a", 7), (readyReqOf "b", 8), (joinReqOf "a" "al", 9)]).1.winner =
          roomDone.winner) :=
  ⟨rfl, claim_C3_complete_frame psEmpty roomDone 0
    [(submitReqOf "a", 7), (readyReqOf "b", 8), (joinReqOf "a" "al", 9)] rfl⟩

/-- A player id that appears in the list is found by findIdx. -/
theorem playerIndex_lt_of_any (s : GameState) (req : ReqBody)
    (hany : s.players.any (fun p => p.id == req.playerId) = true) :
    playerIndex s req < s.players.length := by
  refine List.findIdx_lt_length.mpr ?_
  simpa using hany

/-- Claim C7: a submit action addressed to an existing room that is still
in the Lobby (not active, not finished), by a player who is in the room,
is rejected with the state error of the route and leaves the stored room
state and the oracle index completely unchanged. -/
theorem claim_C7_submit_in_lobby_rejected (ps : ℕ → Puzzle) (k now : ℕ)
    (s : GameState) (roomId : String) (req : ReqBody)
    (hroom : roomId ≠ "") (hact : req.action = "submit")
    (hpid : req.playerId ≠ "") (hsol : jsFalsy req.solution = false)
    (hany : s.players.any (fun p => p.id == req.playerId) = true)
    (hactive : s.isActive = false) (hgo : s.gameOver = false) :
    POSTr ps k now (some s) roomId req =
      (.error (400, "Game is not active or already over"), some s, k) := by
  have hidx : playerIndex (validateLoaded s roomId req.targetScore now) req <
      (validateLoaded s roomId req.targetScore now).players.length :=
    playerIndex_lt_of_any _ req hany
  simp only [POSTr, loadState]
  rw [if_neg (by simp [hroom]), if_neg (by simp [hact]), if_neg (by simp [hpid]),
    if_neg (by simp [hact]), if_neg (by simp [hsol])]
  simp only [applyAction, hact]
  rw [if_neg (by simp), if_neg (by simp)]
  rw [if_pos (by simp)]
  simp only [submitAct]
  rw [dif_pos hidx, if_pos (by simp [validateLoaded, hactive])]

/-- A fresh two-player lobby room with a full queue of five hands. -/
def roomLobby : GameState where
  roomId := "r"
  players := [⟨"a", "alice", false, 0⟩, ⟨"b", "bob", false, 0⟩]
  isActive := false
  currentPuzzle := []
  puzzleQueue := [[], [], [], [], []]
  targetScore := 5
  gameOver := false
  winner := none
  winnerDetails := none
  lastSolution := none

/-- Witness for claim C7 at a concrete lobby room. -/
theorem claim_C7_submit_in_lobby_rejected_witness :
    ("r" ≠ "" ∧ (submitReqOf "a").action = "submit" ∧
        (submitReqOf "a").playerId ≠ "" ∧
        jsFalsy (submitReqOf "a").solution = false ∧
        roomLobby.players.any (fun p => p.id == (submitReqOf "a").playerId) = true ∧
        roomLobby.isActive = false ∧ roomLobby.gameOver = false) ∧
      POSTr psEmpty 0 5 (some roomLobby) "r" (submitReqOf "a") =
        (.error (400, "Game is not active or already over"), some roomLobby, 0) :=
  ⟨⟨by decide, rfl, by decide, rfl, by decide, rfl, rfl⟩,
    claim_C7_submit_in_lobby_rejected psEmpty 0 5 roomLobby "r" (submitReqOf "a")
      (by decide) rfl (by decide) rfl (by decide) rfl rfl⟩

/-- Claim C8: a join whose playerId is already present in the room never
changes the number of players: the rejoin branch updates the entry in
place and the name-conflict rejection leaves the state untouched. -/
theorem claim_C8_join_idempotent (ps : ℕ → Puzzle) (k now : ℕ)
    (s : GameState) (req : ReqBody) (hact : req.action = "join")
    (hmem : s.players.any (fun p => p.id == req.playerId) = true) :
    (stateAfter ps k now s req).players.length = s.players.length := by
  have hidx := playerIndex_lt_of_any s req hmem
  unfold stateAfter
  rcases happ : applyAction ps k now s req with e | ⟨s', k'⟩
  · rfl
  · simp only [applyAction, hact] at happ
    rw [if_pos (by simp)] at happ
    simp only [joinAct] at happ
    split_ifs at happ with hname
    simp only [Except.ok.injEq, Prod.mk.injEq] at happ
    obtain ⟨hs, -⟩ := happ
    subst hs
    simp [List.length_set]

/-- Witness for claim C8: rejoining a concrete lobby room with a new
display name keeps both players. -/
theorem claim_C8_join_idempotent_witness :
    ((joinReqOf "a" "al").action = "join" ∧
        roomLobby.players.any (fun p => p.id == (joinReqOf "a" "al").playerId) = true) ∧
      (stateAfter psEmpty 0 3 roomLobby (joinReqOf "a" "al")).players.length =
        roomLobby.players.length :=
  ⟨⟨rfl, by decide⟩,
    claim_C8_join_idempotent psEmpty 0 3 roomLobby (joinReqOf "a" "al") rfl (by decide)⟩

/-- Claim C1, as stated, is false: there is no assignment of revision
numbers to room states under which every committed mutation increases
the revision by exactly 1, because a committed rejoin maps a state to
itself (GameState carries no revision field at all). -/
theorem claim_C1_counterexample :
    ¬ ∃ rev : GameState → ℤ,
        ∀ (ps : ℕ → Puzzle) (k now : ℕ) (s : GameState) (req : ReqBody)
          (s' : GameState) (k' : ℕ),
          applyAction ps k now s req = .ok (s', k') → rev s' = rev s + 1 := by
  rintro ⟨rev, hrev⟩
  have h := hrev psEmpty 0 0 roomLobby (joinReqOf "a" "alice") roomLobby 0 rfl
  omega

/-- Claim C1 amended: the route keeps no revision counter; a committed
rejoin with the unchanged name returns success and leaves both the
returned snapshot and the stored state exactly as they were. -/
theorem claim_C1_amended_no_revision :
    POSTr psEmpty 0 0 (some roomLobby) "r" (joinReqOf "a" "alice") =
      (.ok roomLobby, some roomLobby, 0) := rfl

/-- Claim C5, as stated, is false at a concrete input: a GET for a room
id that never existed returns a successful snapshot (not a 404-style
error), and a ready action addressed to a never-existing room creates
and persists the room even though the action itself is rejected. -/
theorem claim_C5_counterexample :
    (GETr psEmpty 0 none "r" 0).1 = .ok (freshState psEmpty 0 "r" none) ∧
      (GETr psEmpty 0 none "r" 0).2.1 = some (freshState psEmpty 0 "r" none) ∧
      (POSTr psEmpty 0 0 none "r" (readyReqOf "a")).1 =
        .error (404, "Player not found") ∧
      (POSTr psEmpty 0 0 none "r" (readyReqOf "a")).2.1 =
        some (freshState psEmpty 0 "r" none) :=
  ⟨rfl, rfl, rfl, rfl⟩

/-- Claim C5 amended: any access to a never-existing room id lazily
creates and persists a fresh empty room.  GET returns its snapshot
instead of a 404; ready and submit are rejected with the player-not-found
error and leave (an unknown action string) with the invalid-action error,
but in each case the fresh room has already been written to the store;
join creates the room and appends the joining player. -/
theorem claim_C5_amended_lazy_creation (ps : ℕ → Puzzle) (k now : ℕ)
    (roomId pid pn : String) (hroom : roomId ≠ "") (hpid : pid ≠ "")
    (hpn : pn ≠ "") :
    GETr ps k none roomId now =
        (.ok (freshState ps k roomId none), some (freshState ps k roomId none), k + 5) ∧
      POSTr ps k now none roomId { action := "ready", playerId := pid } =
        (.error (404, "Player not found"), some (freshState ps k roomId none), k + 5) ∧
      POSTr ps k now none roomId
          { action := "submit", playerId := pid, solution := some "x" } =
        (.error (404, "Player not found"), some (freshState ps k roomId none), k + 5) ∧
      POSTr ps k now none roomId { action := "leave", playerId := pid } =
        (.error (400, "Invalid action"), some (freshState ps k roomId none), k + 5) ∧
      POSTr ps k now none roomId
          { action := "join", playerId := pid, playerName := some pn } =
        (.ok { freshState ps k roomId none with players := [⟨pid, pn, false, 0⟩] },
          some { freshState ps k roomId none with players := [⟨pid, pn, false, 0⟩] },
          k + 5) := by
  refine ⟨?_, ?_, ?_, ?_, ?_⟩
  · simp only [GETr, loadState]
    rw [if_neg (by simp [hroom])]
  · simp only [POSTr, loadState]
    rw [if_neg (by simp [hroom]), if_neg (by simp), if_neg (by simp [hpid]),
      if_neg (by simp), if_neg (by simp)]
    rfl
  · simp only [POSTr, loadState]
    rw [if_neg (by simp [hroom]), if_neg (by simp), if_neg (by simp [hpid]),
      if_neg (by simp), if_neg (by decide)]
    rfl
  · simp only [POSTr, loadState]
    rw [if_neg (by simp [hroom]), if_neg (by simp), if_neg (by simp [hpid]),
      if_neg (by simp), if_neg (by simp)]
    rfl
  · simp only [POSTr, loadState]
    rw [if_neg (by simp [hroom]), if_neg (by simp), if_neg (by simp [hpid]),
      if_neg (by simp [jsFalsy, hpn]), if_neg (by simp)]
    simp only [applyAction, joinAct]
    rw [if_pos (by simp)]
    rw [if_neg (by simp [freshState]), dif_neg (by simp [freshState, playerIndex]),
      if_neg (by simp [freshState]), if_neg (by simp [freshState])]
    rfl

/-- Witness for claim C5 amended, at concrete ids. -/
theorem claim_C5_amended_lazy_creation_witness :
    ("r" ≠ "" ∧ "a" ≠ "" ∧ "alice" ≠ "") ∧
      GETr psEmpty 0 none "r" 7 =
        (.ok (freshState psEmpty 0 "r" none), some (freshState psEmpty 0 "r" none), 5) :=
  ⟨⟨by decide, by decide, by decide⟩,
    (claim_C5_amended_lazy_creation psEmpty 0 7 "r" "a" "alice"
      (by decide) (by decide) (by decide)).1⟩

/-- An active two-player room in mid game. -/
def roomActive : GameState where
  roomId := "r"
  players := [⟨"a", "alice", true, 0⟩, ⟨"b", "bob", true, 0⟩]
  isActive := true
  currentPuzzle := []
  puzzleQueue := [[], [], [], []]
  targetScore := 5
  gameOver := false
  winner := none
  winnerDetails := none
  lastSolution := none

/-- Two POST handlers for the same room running concurrently, with the
interleaving the route permits at its await points: both handlers load
the stored state before either saves, then each computes against its own
copy and saves, the second save landing last.  The route has no
serialization point between its loadState and saveState calls, so this
schedule is admissible. -/
def interleavedSubmits (ps : ℕ → Puzzle) (k now₁ now₂ : ℕ)
    (store : Option GameState) (roomId : String) (req₁ req₂ : ReqBody) :
    Option GameState :=
  let l₁ := loadState ps k store roomId req₁.targetScore now₁
  let l₂ := loadState ps l₁.2.1 l₁.2.2 roomId req₂.targetScore now₂
  let store₃ :=
    match applyAction ps l₂.2.1 now₁ l₁.1 req₁ with
    | .ok (s', _) => some (normalizeSave s' now₁)
    | .error _ => l₂.2.2
  match applyAction ps l₂.2.1 now₂ l₂.1 req₂ with
  | .ok (s', _) => some (normalizeSave s' now₂)
  | .error _ => store₃

/-- Claim C4, as stated, is false at a concrete input: when two submits
by different players interleave their load-modify-save cycles, the final
stored state shows only the second increment; the point of the first player
is lost. -/
theorem claim_C4_counterexample :
    (interleavedSubmits psEmpty 0 10 11 (some roomActive) "r"
          (submitReqOf "a") (submitReqOf "b")).map
        (fun s => s.players.map fun p => p.score) =
      some [0, 1] := rfl

/-- Claim C4 amended: the route serializes nothing; only when the two
submit requests pass through the store sequentially (each load seeing the
previous save) do both increments take effect, while the interleaved
schedule loses the first update. -/
theorem claim_C4_amended_sequential_vs_interleaved (ps : ℕ → Puzzle)
    (k now₁ now₂ : ℕ) :
    ((runPosts ps "r" (some roomActive, k)
          [(submitReqOf "a", now₁), (submitReqOf "b", now₂)]).1.map
        (fun s => s.players.map fun p => p.score) = some [1, 1]) ∧
      ((interleavedSubmits ps k now₁ now₂ (some roomActive) "r"
            (submitReqOf "a") (submitReqOf "b")).map
          (fun s => s.players.map fun p => p.score) = some [0, 1]) :=
  ⟨rfl, rfl⟩

/-! ### The reachable puzzle-queue lengths -/

/-- The exact queue length the route maintains in each phase-flag
combination: 5 in the lobby, 4 while active, 4 after the game ends, and
3 in the anomalous state where a ready restarted a finished room. -/
def queueInv (s : GameState) : Prop :=
  (s.isActive = false → s.gameOver = false → s.puzzleQueue.length = 5) ∧
  (s.isActive = true → s.gameOver = false → s.puzzleQueue.length = 4) ∧
  (s.isActive = false → s.gameOver = true → s.puzzleQueue.length = 4) ∧
  (s.isActive = true → s.gameOver = true → s.puzzleQueue.length = 3)

theorem queueInv_three_le (s : GameState) (hinv : queueInv s) :
    3 ≤ s.puzzleQueue.length := by
  obtain ⟨i1, i2, i3, i4⟩ := hinv
  cases ha : s.isActive <;> cases hg : s.gameOver <;> simp_all

theorem newQueue_length (ps : ℕ → Puzzle) (k : ℕ) :
    (newQueue ps k).length = 5 := by
  simp [newQueue]

/-- A committed join leaves the queue untouched. -/
theorem joinAct_queue (s : GameState) (req : ReqBody) (k : ℕ) (s' : GameState)
    (k' : ℕ) (h : joinAct s req k = .ok (s', k')) :
    s'.puzzleQueue = s.puzzleQueue := by
  simp only [joinAct] at h
  split_ifs at h
  all_goals simp only [Except.ok.injEq, Prod.mk.injEq, reduceCtorEq] at h
  all_goals obtain ⟨hs, -⟩ := h
  all_goals subst hs
  all_goals rfl

theorem joinAct_inv (s : GameState) (req : ReqBody) (k : ℕ) (s' : GameState)
    (k' : ℕ) (hinv : queueInv s) (h : joinAct s req k = .ok (s', k')) :
    queueInv s' := by
  obtain ⟨ha, hg⟩ := joinAct_flags s req k s' k' h
  have hq := joinAct_queue s req k s' k' h
  unfold queueInv at hinv ⊢
  rw [ha, hg, hq]
  exact hinv

theorem readyAct_inv (ps : ℕ → Puzzle) (k : ℕ) (s : GameState) (req : ReqBody)
    (s' : GameState) (k' : ℕ) (hinv : queueInv s)
    (h : readyAct ps k s req = .ok (s', k')) : queueInv s' := by
  obtain ⟨i1, i2, i3, i4⟩ := hinv
  simp only [readyAct] at h
  split_ifs at h with hidx hstart hq
  all_goals simp only [Except.ok.injEq, Prod.mk.injEq, reduceCtorEq] at h
  all_goals obtain ⟨hs, -⟩ := h
  all_goals subst hs
  · -- start with refill: contradicts the invariant, the queue is never
    -- empty before the transition
    simp only [Bool.and_eq_true, Bool.not_eq_true'] at hstart
    have hA : s.isActive = false := hstart.2
    cases hg2 : s.gameOver
    · have := i1 hA hg2; omega
    · have := i3 hA hg2; omega
  · -- start without refill: pop one
    simp only [Bool.and_eq_true, Bool.not_eq_true'] at hstart
    have hA : s.isActive = false := hstart.2
    refine ⟨by simp, ?_, by simp, ?_⟩
    · intro _ hg2
      simp only [List.length_tail]
      rw [i1 hA hg2]
    · intro _ hg2
      simp only [List.length_tail]
      rw [i3 hA hg2]
  · -- no transition: nothing changes
    exact ⟨i1, i2, i3, i4⟩

theorem submitAct_inv (ps : ℕ → Puzzle) (k now : ℕ) (s : GameState)
    (req : ReqBody) (s' : GameState) (k' : ℕ) (hinv : queueInv s)
    (h : submitAct ps k now s req = .ok (s', k')) : queueInv s' := by
  obtain ⟨hA, hG, -⟩ := submitAct_flags ps k now s req s' k' h
  have hlen : s.puzzleQueue.length = 4 := hinv.2.1 hA hG
  simp only [submitAct] at h
  split_ifs at h with hidx hguard hwin hq
  all_goals simp only [Except.ok.injEq, Prod.mk.injEq, reduceCtorEq] at h
  all_goals obtain ⟨hs, -⟩ := h
  all_goals subst hs
  · -- the win branch freezes the queue
    exact ⟨by simp, by simp, fun _ _ => hlen, by simp⟩
  · omega
  · -- pop one, push one
    refine ⟨by simp [hA], fun _ _ => ?_, by simp [hA], by simp [hG]⟩
    simp only [List.length_append, List.length_tail, List.length_cons,
      List.length_nil]
    omega

theorem applyAction_inv (ps : ℕ → Puzzle) (k now : ℕ) (s : GameState)
    (req : ReqBody) (s' : GameState) (k' : ℕ) (hinv : queueInv s)
    (h : applyAction ps k now s req = .ok (s', k')) : queueInv s' := by
  unfold applyAction at h
  split_ifs at h
  · exact joinAct_inv s req k s' k' hinv h
  · exact readyAct_inv ps k s req s' k' hinv h
  · exact submitAct_inv ps k now s req s' k' hinv h

theorem queueInv_validateLoaded (s : GameState) (roomId : String)
    (tgt : Option ℕ) (now : ℕ) (hinv : queueInv s) :
    queueInv (validateLoaded s roomId tgt now) := hinv

theorem queueInv_normalizeSave (s : GameState) (now : ℕ) (hinv : queueInv s) :
    queueInv (normalizeSave s now) := hinv

theorem queueInv_freshState (ps : ℕ → Puzzle) (k : ℕ) (roomId : String)
    (tgt : Option ℕ) : queueInv (freshState ps k roomId tgt) := by
  refine ⟨fun _ _ => ?_, by simp [freshState], by simp [freshState], by simp [freshState]⟩
  simpa using newQueue_length ps k

/-- The stored room, when present, satisfies the queue invariant. -/
def storeInv (st : Option GameState) : Prop :=
  ∀ s, st = some s → queueInv s

theorem storeInv_POSTr (ps : ℕ → Puzzle) (k now : ℕ) (store : Option GameState)
    (roomId : String) (req : ReqBody) (hst : storeInv store) :
    storeInv (POSTr ps k now store roomId req).2.1 := by
  unfold POSTr
  split_ifs with h1 h2 h3 h4 h5
  any_goals exact hst
  rcases store with - | s₀
  · -- fresh room created by loadState
    simp only [loadState]
    rcases happ : applyAction ps (k + 5) now (freshState ps k roomId req.targetScore) req with
      e | ⟨s', k₂⟩
    · intro s hs
      obtain rfl : freshState ps k roomId req.targetScore = s := by
        simpa using hs
      exact queueInv_freshState ps k roomId req.targetScore
    · intro s hs
      obtain rfl : normalizeSave s' now = s := by simpa using hs
      exact queueInv_normalizeSave s' now
        (applyAction_inv ps (k + 5) now _ req s' k₂
          (queueInv_freshState ps k roomId req.targetScore) happ)
  · simp only [loadState]
    rcases happ : applyAction ps k now
        (validateLoaded s₀ roomId req.targetScore now) req with e | ⟨s', k₂⟩
    · exact hst
    · intro s hs
      obtain rfl : normalizeSave s' now = s := by simpa using hs
      exact queueInv_normalizeSave s' now
        (applyAction_inv ps k now _ req s' k₂
          (queueInv_validateLoaded s₀ roomId req.targetScore now
            (hst s₀ rfl)) happ)

/-- Every store reachable by a run of POST requests from an absent room
satisfies the queue invariant. -/
theorem storeInv_runPosts (ps : ℕ → Puzzle) (roomId : String) (k : ℕ)
    (trs : List TimedReq) : storeInv (runPosts ps roomId (none, k) trs).1 := by
  suffices h : ∀ acc : Option GameState × ℕ, storeInv acc.1 →
      storeInv (runPosts ps roomId acc trs).1 from
    h (none, k) (by intro s hs; cases hs)
  induction trs with
  | nil => intro acc hacc; exact hacc
  | cons tr rest ih =>
    intro acc hacc
    exact ih (runStep ps roomId acc tr)
      (storeInv_POSTr ps acc.2 tr.2 acc.1 roomId tr.1 hacc)

/-- Claim C6, as stated, is false at a concrete input: the Lobby to
Active transition pops a puzzle and does not refill the queue, so the
queue length drops from 5 to 4 (a refill-by-one after the pop would have
restored 5). -/
theorem claim_C6_counterexample :
    ((runPosts psEmpty "r" (none, 0)
          [(joinReqOf "a" "alice", 1), (joinReqOf "b" "bob", 2),
            (readyReqOf "a", 3)]).1.map fun s =>
        (s.isActive, s.puzzleQueue.length)) = some (false, 5) ∧
      ((runPosts psEmpty "r" (none, 0)
            [(joinReqOf "a" "alice", 1), (joinReqOf "b" "bob", 2),
              (readyReqOf "a", 3), (readyReqOf "b", 4)]).1.map fun s =>
          (s.isActive, s.puzzleQueue.length)) = some (true, 4) :=
  ⟨rfl, rfl⟩

/-- Claim C6 amended: the Lobby to Active pop is not followed by a
refill, but the queue can never run dry: after any committed action on
any reachable room the queue holds at least one puzzle (in fact at least
three), and a committed non-winning submit leaves at least two, so the
pop inside it was taken from a queue that still had a puzzle left
afterwards (the submit branch does refill by one after its pop). -/
theorem claim_C6_amended_queue_never_empty (ps : ℕ → Puzzle)
    (roomId : String) (k0 : ℕ) (trs : List TimedReq) (st : GameState)
    (k now k₂ : ℕ) (req : ReqBody) (s' : GameState)
    (store' : Option GameState)
    (hreach : (runPosts ps roomId (none, k0) trs).1 = some st)
    (hpost : POSTr ps k now (some st) roomId req = (.ok s', store', k₂)) :
    1 ≤ s'.puzzleQueue.length ∧
      (req.action = "submit" → s'.gameOver = false →
        2 ≤ s'.puzzleQueue.length) := by
  have hstinv : queueInv st := storeInv_runPosts ps roomId k0 trs st hreach
  unfold POSTr at hpost
  split_ifs at hpost with h1 h2 h3 h4 h5
  all_goals simp only [Prod.mk.injEq, reduceCtorEq, false_and] at hpost
  simp only [loadState] at hpost
  rcases happ : applyAction ps k now
      (validateLoaded st roomId req.targetScore now) req with e | ⟨s'0, k₂0⟩ <;>
    rw [happ] at hpost
  · simp at hpost
  simp only [Except.ok.injEq, Prod.mk.injEq] at hpost
  obtain ⟨hs, -, -⟩ := hpost
  rw [← hs]
  have hinv' : queueInv s'0 :=
    applyAction_inv ps k now _ req s'0 k₂0
      (queueInv_validateLoaded st roomId req.targetScore now hstinv) happ
  constructor
  · have := queueInv_three_le s'0 hinv'
    omega
  · intro hsub hgo'
    unfold applyAction at happ
    rw [if_neg (by simp [hsub]), if_neg (by simp [hsub]),
      if_pos (by simp [hsub])] at happ
    obtain ⟨-, -, hc⟩ := submitAct_flags ps k now _ req s'0 k₂0 happ
    rcases hc with hc | ⟨hact', hgo2⟩
    · rw [hc] at hgo'
      cases hgo'
    · have hlen := hinv'.2.1 hact' hgo'
      omega

/-- The concrete action trace used to exercise claim C6. -/
def trsC6 : List TimedReq :=
  [(joinReqOf "a" "alice", 1), (joinReqOf "b" "bob", 2), (readyReqOf "a", 3)]

/-- The stored room after the trace trsC6. -/
def stC6 : GameState := ((runPosts psEmpty "r" (none, 0) trsC6).1).getD roomLobby

/-- The result of the ready action that starts the game on stC6. -/
def postC6 : Except ErrResp GameState × Option GameState × ℕ :=
  POSTr psEmpty 0 4 (some stC6) "r" (readyReqOf "b")

/-- The committed state of postC6. -/
def sC6 : GameState :=
  match postC6.1 with
  | .ok s => s
  | .error _ => roomLobby

/-- Witness for the amended claim C6 at a concrete reachable room and
the concrete ready action that fires the Lobby to Active transition. -/
theorem claim_C6_amended_queue_never_empty_witness :
    ((runPosts psEmpty "r" (none, 0) trsC6).1 = some stC6 ∧
        POSTr psEmpty 0 4 (some stC6) "r" (readyReqOf "b") =
          (.ok sC6, postC6.2.1, postC6.2.2)) ∧
      (1 ≤ sC6.puzzleQueue.length ∧
        ((readyReqOf "b").action = "submit" → sC6.gameOver = false →
          2 ≤ sC6.puzzleQueue.length)) :=
  ⟨⟨rfl, rfl⟩,
    claim_C6_amended_queue_never_empty psEmpty "r" 0 trsC6 stC6 0 4
      postC6.2.2 (readyReqOf "b") sC6 postC6.2.1 rfl rfl⟩

/-! ### Lemmas about the index filter used by combineExpressions -/

theorem filterIdxFrom_subset (p : ℕ → Bool) :
    ∀ (l : List α) (n : ℕ) (x : α), x ∈ filterIdxFrom p n l → x ∈ l := by
  intro l
  induction l with
  | nil => intro n x hx; cases hx
  | cons a tl ih =>
    intro n x hx
    simp only [filterIdxFrom, List.mem_append] at hx
    rcases hx with hx | hx
    · split_ifs at hx with hp
      · simp only [List.mem_singleton] at hx
        exact hx ▸ List.mem_cons_self a tl
      · cases hx
    · exact List.mem_cons_of_mem a (ih (n + 1) x hx)

theorem filterIdxFrom_shift (p : ℕ → Bool) :
    ∀ (l : List α) (n : ℕ),
      filterIdxFrom p (n + 1) l = filterIdxFrom (fun i => p (i + 1)) n l := by
  intro l
  induction l with
  | nil => intro n; rfl
  | cons a tl ih =>
    intro n
    simp only [filterIdxFrom]
    rw [ih (n + 1)]

theorem filterIdxFrom_all_true (p : ℕ → Bool) :
    ∀ (l : List α) (n : ℕ), (∀ m, p m = true) → filterIdxFrom p n l = l := by
  intro l
  induction l with
  | nil => intro n _; rfl
  | cons a tl ih =>
    intro n hall
    simp only [filterIdxFrom, hall n, if_true]
    rw [ih (n + 1) hall]
    rfl

theorem filterIdxFrom_congr (p q : ℕ → Bool) (hpq : ∀ m, p m = q m) :
    ∀ (l : List α) (n : ℕ), filterIdxFrom p n l = filterIdxFrom q n l := by
  intro l
  induction l with
  | nil => intro n; rfl
  | cons a tl ih =>
    intro n
    simp only [filterIdxFrom, hpq n]
    rw [ih (n + 1)]

/-- Removing the entry at one index from a list and adding its
contribution back recovers the total sum. -/
theorem sum_filterIdxFrom_single (g : α → Multiset ℚ) :
    ∀ (l : List α) (m : ℕ) (hm : m < l.length),
      ((filterIdxFrom (fun idx => idx != m) 0 l).map g).sum + g (l.get ⟨m, hm⟩) =
        (l.map g).sum := by
  intro l
  induction l with
  | nil => intro m hm; cases hm
  | cons a tl ih =>
    intro m hm
    cases m with
    | zero =>
      show ((filterIdxFrom (fun idx => idx != 0) 0 (a :: tl)).map g).sum + g a =
        (List.map g (a :: tl)).sum
      simp only [filterIdxFrom]
      rw [if_neg (by simp), filterIdxFrom_shift,
        filterIdxFrom_congr _ (fun _ => true) (fun m => by simp) tl 0,
        filterIdxFrom_all_true _ tl 0 (fun m => rfl)]
      simp only [List.nil_append, List.map_cons, List.sum_cons]
      exact add_comm _ _
    | succ m' =>
      have hm' : m' < tl.length := by simpa using hm
      show ((filterIdxFrom (fun idx => idx != (m' + 1)) 0 (a :: tl)).map g).sum +
          g (tl.get ⟨m', hm'⟩) = (List.map g (a :: tl)).sum
      simp only [filterIdxFrom]
      rw [if_pos (by simp), filterIdxFrom_shift,
        filterIdxFrom_congr _ (fun i => i != m') (fun m => by simp) tl 0]
      simp only [List.singleton_append, List.map_cons, List.sum_cons]
      rw [← ih m' hm']
      abel

/-- Removing the entries at two distinct indices from a list and adding
their contributions back recovers the total sum; this is the remaining
list of combineExpressions. -/
theorem sum_filterIdxFrom_pair (g : α → Multiset ℚ) :
    ∀ (l : List α) (i j : ℕ), i ≠ j →
      ∀ (hi : i < l.length) (hj : j < l.length),
      ((filterIdxFrom (fun idx => idx != i && idx != j) 0 l).map g).sum +
          g (l.get ⟨i, hi⟩) + g (l.get ⟨j, hj⟩) =
        (l.map g).sum := by
  intro l
  induction l with
  | nil => intro i j _ hi _; cases hi
  | cons a tl ih =>
    intro i j hij hi hj
    cases i with
    | zero =>
      cases j with
      | zero => exact absurd rfl hij
      | succ j' =>
        have hj' : j' < tl.length := by simpa using hj
        show ((filterIdxFrom (fun idx => idx != 0 && idx != (j' + 1)) 0
              (a :: tl)).map g).sum + g a + g (tl.get ⟨j', hj'⟩) =
          (List.map g (a :: tl)).sum
        simp only [filterIdxFrom]
        rw [if_neg (by simp), filterIdxFrom_shift,
          filterIdxFrom_congr _ (fun i => i != j') (fun m => by simp) tl 0]
        simp only [List.nil_append, List.map_cons, List.sum_cons]
        rw [← sum_filterIdxFrom_single g tl j' hj']
        abel
    | succ i' =>
      have hi' : i' < tl.length := by simpa using hi
      cases j with
      | zero =>
        show ((filterIdxFrom (fun idx => idx != (i' + 1) && idx != 0) 0
              (a :: tl)).map g).sum + g (tl.get ⟨i', hi'⟩) + g a =
          (List.map g (a :: tl)).sum
        simp only [filterIdxFrom]
        rw [if_neg (by simp), filterIdxFrom_shift,
          filterIdxFrom_congr _ (fun i => i != i') (fun m => by simp) tl 0]
        simp only [List.nil_append, List.map_cons, List.sum_cons]
        rw [← sum_filterIdxFrom_single g tl i' hi']
        abel
      | succ j' =>
        have hj' : j' < tl.length := by simpa using hj
        have hij' : i' ≠ j' := fun hc => hij (by rw [hc])
        show ((filterIdxFrom (fun idx => idx != (i' + 1) && idx != (j' + 1)) 0
              (a :: tl)).map g).sum + g (tl.get ⟨i', hi'⟩) + g (tl.get ⟨j', hj'⟩) =
          (List.map g (a :: tl)).sum
        simp only [filterIdxFrom]
        rw [if_pos (by simp), filterIdxFrom_shift,
          filterIdxFrom_congr _ (fun i => i != i' && i != j') (fun m => by simp) tl 0]
        simp only [List.singleton_append, List.map_cons, List.sum_cons]
        rw [← ih i' j' hij' hi' hj']
        abel

/-! ### Soundness of the solver search -/

/-- An Expression record is coherent when its cached value is the value
of its tree. -/
def ExprOK (e : Expression) : Prop := evalExpr e.tree = some e.value

/-- applyOperator preserves coherence and concatenates the leaves. -/
theorem applyOperator_ok (a b e : Expression) (op : Op)
    (ha : ExprOK a) (hb : ExprOK b) (h : applyOperator a b op = some e) :
    ExprOK e ∧ leavesM e.tree = leavesM a.tree + leavesM b.tree := by
  cases op <;> simp only [applyOperator] at h
  · obtain rfl : (⟨.bin .add a.tree b.tree, a.value + b.value⟩ : Expression) = e := by
      simpa using h
    refine ⟨?_, rfl⟩
    simp only [ExprOK, evalExpr]
    rw [ha, hb]
  · obtain rfl : (⟨.bin .sub a.tree b.tree, a.value - b.value⟩ : Expression) = e := by
      simpa using h
    refine ⟨?_, rfl⟩
    simp only [ExprOK, evalExpr]
    rw [ha, hb]
  · obtain rfl : (⟨.bin .mul a.tree b.tree, a.value * b.value⟩ : Expression) = e := by
      simpa using h
    refine ⟨?_, rfl⟩
    simp only [ExprOK, evalExpr]
    rw [ha, hb]
  · split_ifs at h with hz
    obtain rfl : (⟨.bin .div a.tree b.tree, a.value / b.value⟩ : Expression) = e := by
      simpa using h
    refine ⟨?_, rfl⟩
    simp only [ExprOK, evalExpr]
    rw [ha, hb]
    exact if_neg hz

/-- The total leaf content of a list of expressions. -/
def leafSum (es : List Expression) : Multiset ℚ :=
  (es.map fun e => leavesM e.tree).sum

/-- Every output of the combination search is a coherent expression
whose leaves are exactly the leaves of all the inputs together. -/
theorem combineGo_mem :
    ∀ (fuel : ℕ) (es : List Expression), (∀ e ∈ es, ExprOK e) →
      ∀ e' ∈ combineGo fuel es, ExprOK e' ∧ leavesM e'.tree = leafSum es := by
  intro fuel
  induction fuel with
  | zero =>
    intro es hok e' he'
    rw [combineGo] at he'
    split_ifs at he' with hlen
    · match es, hlen with
      | [e], _ =>
        obtain rfl : e' = e := by simpa using he'
        exact ⟨hok e' (by simp), by simp [leafSum]⟩
    · cases he'
  | succ fuel ih =>
    intro es hok e' he'
    rw [combineGo] at he'
    split_ifs at he' with hlen
    · match es, hlen with
      | [e], _ =>
        obtain rfl : e' = e := by simpa using he'
        exact ⟨hok e' (by simp), by simp [leafSum]⟩
    · simp only [List.mem_flatMap, List.mem_range] at he'
      obtain ⟨i, hi, j, hj, he'⟩ := he'
      have hij : i ≠ j := by
        rintro rfl
        simp at he'
      rw [if_neg hij] at he'
      simp only [List.mem_flatMap] at he'
      obtain ⟨op, -, he'⟩ := he'
      rcases happly : applyOperator es[i]! es[j]! op with - | newE <;>
        rw [happly] at he'
      · cases he'
      · rw [getElem!_pos es i hi, getElem!_pos es j hj] at happly
        obtain ⟨hnewOK, hnewLeaves⟩ :=
          applyOperator_ok (es.get ⟨i, hi⟩) (es.get ⟨j, hj⟩) newE op
            (hok _ (List.get_mem es i hi)) (hok _ (List.get_mem es j hj))
            happly
        have hokRest : ∀ e ∈ filterIdxFrom (fun idx => idx != i && idx != j) 0 es ++ [newE],
            ExprOK e := by
          intro e he
          rcases List.mem_append.mp he with he | he
          · exact hok e (filterIdxFrom_subset _ es 0 e he)
          · obtain rfl : e = newE := by simpa using he
            exact hnewOK
        obtain ⟨hok', hleaves⟩ := ih _ hokRest e' he'
        refine ⟨hok', ?_⟩
        rw [hleaves]
        unfold leafSum
        rw [List.map_append, List.sum_append]
        simp only [List.map_cons, List.map_nil, List.sum_cons, List.sum_nil,
          add_zero]
        rw [hnewLeaves, ← add_assoc]
        exact sum_filterIdxFrom_pair _ es i j hij hi hj

/-- Putting the element at index i in front of the rest of the list is a
permutation of the list; the rest is the slice pair of the source. -/
theorem cons_take_drop_perm :
    ∀ (arr : List Expression) (i : ℕ) (hi : i < arr.length),
      (arr.get ⟨i, hi⟩ :: (arr.take i ++ arr.drop (i + 1))).Perm arr := by
  intro arr
  induction arr with
  | nil => intro i hi; cases hi
  | cons a tl ih =>
    intro i hi
    cases i with
    | zero => simp
    | succ i' =>
      have hi' : i' < tl.length := by simpa using hi
      show (tl.get ⟨i', hi'⟩ :: a :: (tl.take i' ++ tl.drop (i' + 1))).Perm (a :: tl)
      exact List.Perm.trans
        (List.Perm.swap a (tl.get ⟨i', hi'⟩) (tl.take i' ++ tl.drop (i' + 1)))
        (List.Perm.cons a (ih i' hi'))

/-- Every list produced by the permutation generator is a permutation of
its input. -/
theorem permsGo_perm :
    ∀ (fuel : ℕ) (arr : List Expression) (l : List Expression),
      l ∈ permsGo fuel arr → l.Perm arr := by
  intro fuel
  induction fuel with
  | zero =>
    intro arr l hl
    match arr with
    | [] =>
      obtain rfl : l = [] := by simpa [permsGo] using hl
      exact List.Perm.refl _
    | [a] =>
      obtain rfl : l = [a] := by simpa [permsGo] using hl
      exact List.Perm.refl _
    | a :: b :: tl =>
      simp [permsGo] at hl
  | succ fuel ih =>
    intro arr l hl
    match arr with
    | [] =>
      obtain rfl : l = [] := by simpa [permsGo] using hl
      exact List.Perm.refl _
    | [a] =>
      obtain rfl : l = [a] := by simpa [permsGo] using hl
      exact List.Perm.refl _
    | a :: b :: tl =>
      simp only [permsGo, List.mem_flatMap, List.mem_range, List.mem_map] at hl
      obtain ⟨i, hi, perm, hperm, rfl⟩ := hl
      have hrest := ih _ perm hperm
      rw [getElem!_pos (a :: b :: tl) i hi]
      exact List.Perm.trans (List.Perm.cons _ hrest)
        (cons_take_drop_perm (a :: b :: tl) i hi)

/-- The leaves of the starting singleton expressions are exactly the
input numbers, as a multiset. -/
theorem sum_singleton_map (ns : List ℚ) :
    ((ns.map fun n => ({n} : Multiset ℚ)).sum = (ns : Multiset ℚ)) := by
  induction ns with
  | nil => rfl
  | cons n tl ih =>
    simp only [List.map_cons, List.sum_cons, ih, Multiset.singleton_add,
      Multiset.cons_coe]

/-- A hand is solvable when some arithmetic expression over the four
operators uses exactly the numbers of the hand, each once, and evaluates
to a value within the tolerance 1e-10 of 24. -/
def solvable24 (ns : List ℚ) : Prop :=
  ∃ e : Expr, leavesM e = (ns : Multiset ℚ) ∧
    ∃ v, evalExpr e = some v ∧ |v - 24| < tol24

/-- When hasSolution accepts a hand, the hand has four numbers and is
genuinely solvable: the search only returns coherent expressions built
from one permutation of the inputs. -/
theorem hasSolution_solvable (ns : List ℚ) (h : hasSolution ns = true) :
    ns.length = 4 ∧ solvable24 ns := by
  unfold hasSolution at h
  rcases hsol : solve ns with e | l <;> rw [hsol] at h
  · cases h
  · have hlen4 : ns.length = 4 := by
      by_contra hne
      unfold solve at hsol
      rw [if_pos hne] at hsol
      cases hsol
    refine ⟨hlen4, ?_⟩
    have hpos : 0 < l.length := by simpa using h
    obtain ⟨e', he'⟩ := List.exists_mem_of_length_pos hpos
    unfold solve at hsol
    rw [if_neg (by simp [hlen4])] at hsol
    simp only [Except.ok.injEq] at hsol
    rw [← hsol] at he'
    simp only [List.mem_flatMap] at he'
    obtain ⟨perm, hperm, he'⟩ := he'
    rw [List.mem_filter] at he'
    obtain ⟨hmem, htol⟩ := he'
    have hpermOK : perm.Perm (ns.map fun n => (⟨.num n, n⟩ : Expression)) :=
      permsGo_perm _ _ perm hperm
    have hok : ∀ e ∈ perm, ExprOK e := by
      intro e he
      have : e ∈ ns.map fun n => (⟨.num n, n⟩ : Expression) :=
        (hpermOK.mem_iff).mp he
      simp only [List.mem_map] at this
      obtain ⟨n, -, rfl⟩ := this
      rfl
    obtain ⟨heOK, hleaves⟩ := combineGo_mem perm.length perm hok e' hmem
    refine ⟨e'.tree, ?_, e'.value, heOK, by simpa using htol⟩
    rw [hleaves]
    unfold leafSum
    have hmapped : ((perm.map fun e => leavesM e.tree)).sum =
        (((ns.map fun n => (⟨.num n, n⟩ : Expression)).map fun e =>
            leavesM e.tree)).sum :=
      (hpermOK.map fun e => leavesM e.tree).sum_eq
    rw [hmapped, List.map_map]
    have : ((fun e : Expression => leavesM e.tree) ∘
        fun n : ℚ => (⟨.num n, n⟩ : Expression)) = fun n : ℚ => ({n} : Multiset ℚ) := rfl
    rw [this, sum_singleton_map]

/-- The fallback hand 3 3 8 8 is solvable: 8 divided by (3 minus 8/3)
is exactly 24. -/
theorem fallback_solvable : solvable24 fallbackPuzzle := by
  refine ⟨.bin .div (.num 8) (.bin .sub (.num 3) (.bin .div (.num 8) (.num 3))),
    by decide, 24, ?_, ?_⟩
  · show evalExpr _ = some 24
    simp only [evalExpr]
    show (if ((3 : ℚ) - 8 / 3) = 0 then none
        else some ((8 : ℚ) / (3 - 8 / 3))) = some 24
    rw [if_neg (by norm_num)]
    norm_num
  · rw [show |(24 : ℚ) - 24| = 0 by norm_num]
    norm_num [tol24]

/-- Claim C9: every hand returned by generatePuzzle, whichever values the
random stream produces, is a list of exactly four integers that admits at
least one arithmetic expression over the four operators, using each value
exactly once, that evaluates to 24 within the tolerance 1e-10; this holds
both for a random hand accepted by the solver within the attempt budget
and for the fixed fallback hand. -/
theorem claim_C9_generatePuzzle_solvable (r : ℕ → ℤ) :
    (generatePuzzle r).length = 4 ∧
      ((generatePuzzle r).all fun x => x.den == 1) = true ∧
      solvable24 (generatePuzzle r) := by
  have main : ∀ (fuel attempt : ℕ),
      (genGo r fuel attempt).length = 4 ∧
        ((genGo r fuel attempt).all fun x => x.den == 1) = true ∧
        solvable24 (genGo r fuel attempt) := by
    intro fuel
    induction fuel with
    | zero =>
      intro attempt
      refine ⟨rfl, ?_, fallback_solvable⟩
      show (fallbackPuzzle.all fun x => x.den == 1) = true
      decide
    | succ fuel ih =>
      intro attempt
      simp only [genGo]
      split_ifs with hsol
      · obtain ⟨hlen, hsolv⟩ := hasSolution_solvable _ hsol
        refine ⟨hlen, ?_, hsolv⟩
        simp [candidate, Rat.den_intCast]
      · exact ih (attempt + 1)
  exact main 100 0

/-- Claim C10: solve rejects every input whose length is not exactly 4
with the error of the source, and returns a solution list exactly for
inputs of four numbers. -/
theorem claim_C10_solve_length_guard (ns : List ℚ) :
    (ns.length ≠ 4 → solve ns = .error "The 24 game requires exactly 4 numbers") ∧
      ((∃ l, solve ns = .ok l) ↔ ns.length = 4) := by
  refine ⟨fun h => ?_, ⟨fun hex => ?_, fun h4 => ?_⟩⟩
  · unfold solve
    rw [if_pos h]
  · obtain ⟨l, hl⟩ := hex
    by_contra hne
    unfold solve at hl
    rw [if_pos hne] at hl
    cases hl
  · have hok : solve ns = .ok ((permutationsL
        (ns.map fun n => (⟨.num n, n⟩ : Expression))).flatMap fun perm =>
          (combineExpressions perm).filter fun e =>
            decide (|e.value - 24| < tol24)) := by
      unfold solve
      rw [if_neg (by simp [h4])]
    exact ⟨_, hok⟩

/-- Witness for claim C10 at the concrete three-number input. -/
theorem claim_C10_solve_length_guard_witness :
    ([1, 2, 3] : List ℚ).length ≠ 4 ∧
      solve ([1, 2, 3] : List ℚ) =
        .error "The 24 game requires exactly 4 numbers" :=
  ⟨by decide, (claim_C10_solve_length_guard [1, 2, 3]).1 (by decide)⟩

end TwentyFour
